import Mathlib

/-!
Verification development for the AutoDocGPT agent core.

This file gives a shallow embedding, in Lean, of the agent-orchestration core
of the repository: conversation memory (`agent_core/memory.py`), the action
execution environment (`agent_core/environment.py`), the tool registry
(`agent_core/registry.py`), the prompt/response translation layer
(`language.py`) and the orchestration loop (`main.py`), together with theorems
settling the specification's claims about them.

Python values flowing through the core (decoded JSON, tool arguments, tool
results) are modelled by the inductive type `JVal`.  Python dictionaries are
modelled as insertion-ordered association lists with string keys; exceptions
are modelled with `Except`.  Wall-clock timestamps and floating-point JSON
numbers are outside the model (no claim depends on them).
-/

namespace AutoDoc

/-- A decoded JSON / Python value.  Objects are insertion-ordered association
lists, mirroring Python `dict` semantics.  Numbers are modelled as integers;
float literals are outside the model (no claim involves them). -/
inductive JVal where
  | null
  | bool (b : Bool)
  | num (n : Int)
  | str (s : String)
  | arr (xs : List JVal)
  | obj (fields : List (String × JVal))

/-- Whether a value is a Python string (`isinstance(x, str)`). -/
def JVal.isStr : JVal → Bool
  | .str _ => true
  | _ => false

/-- Whether a value is a Python dict (`isinstance(x, dict)`). -/
def JVal.isObj : JVal → Bool
  | .obj _ => true
  | _ => false

/-- Lookup in an insertion-ordered dictionary: Python `d.get(k)` (first — and,
for dictionaries built with `dictInsert`, only — entry with the key). -/
def dictGet {α : Type} (d : List (String × α)) (k : String) : Option α :=
  (d.find? (fun e => e.1 == k)).map (·.2)

/-- Python `d[k] = v`: if the key is present, the value is replaced at its
existing position; otherwise the pair is appended.  This is exactly CPython's
insertion-order-preserving dict update. -/
def dictInsert {α : Type} (d : List (String × α)) (k : String) (v : α) :
    List (String × α) :=
  if d.any (fun e => e.1 == k) then
    d.map (fun e => if e.1 == k then (k, v) else e)
  else d ++ [(k, v)]

/-- Python `k in d` for a string key. -/
def hasKey {α : Type} (d : List (String × α)) (k : String) : Bool :=
  d.any (fun e => e.1 == k)

/-!  A small executable model of `json.loads` (the standard-library JSON
decoder used by `language.py`).  It follows the JSON grammar accepted by
Python's decoder, restricted to integer numerics: float literals, `NaN`,
`Infinity` and `\uXXXX` string escapes are outside the model.  Duplicate
object keys keep the last value, as Python dicts do.  The parser is fueled so
that every definition is a plain structural recursion that the kernel can
evaluate. -/

/-- Skip JSON whitespace (space, tab, newline, carriage return). -/
def skipWs : List Char → List Char
  | c :: cs =>
    if c = ' ' ∨ c = '\t' ∨ c = '\n' ∨ c = '\r' then skipWs cs else c :: cs
  | [] => []

/-- Decode a single-character JSON string escape (after the backslash). -/
def escChar (e : Char) : Option Char :=
  if e = 'n' then some '\n'
  else if e = 't' then some '\t'
  else if e = 'r' then some '\r'
  else if e = '"' then some '"'
  else if e = '\\' then some '\\'
  else if e = '/' then some '/'
  else if e = 'b' then some (Char.ofNat 8)
  else if e = 'f' then some (Char.ofNat 12)
  else none

/-- Parse the body of a JSON string (the opening quote already consumed),
returning the decoded characters and the rest of the input.  Raw control
characters are rejected, as by Python's strict decoder. -/
def parseStringChars : List Char → Option (List Char × List Char)
  | [] => none
  | c :: cs =>
    if c = '"' then some ([], cs)
    else if c = '\\' then
      match cs with
      | [] => none
      | e :: cs' =>
        match escChar e with
        | none => none
        | some d => (parseStringChars cs').map (fun r => (d :: r.1, r.2))
    else if 32 ≤ c.toNat then
      (parseStringChars cs).map (fun r => (c :: r.1, r.2))
    else none

/-- Take a maximal run of decimal digits. -/
def takeDigits : List Char → (List Char × List Char)
  | c :: cs =>
    if c.isDigit then
      let r := takeDigits cs
      (c :: r.1, r.2)
    else ([], c :: cs)
  | [] => ([], [])

/-- Decimal digits to a natural number. -/
def digitsToNat (l : List Char) : Nat :=
  l.foldl (fun a c => a * 10 + (c.toNat - 48)) 0

/-- Parse a JSON integer literal (optional minus sign, no leading zeros).  A
following fraction or exponent marks a float literal, which is outside the
model and rejected here. -/
def parseNumber (cs : List Char) : Option (JVal × List Char) :=
  let p := match cs with
    | '-' :: r => (true, r)
    | _ => (false, cs)
  let d := takeDigits p.2
  match d.1 with
  | [] => none
  | c :: rest =>
    if c = '0' ∧ rest ≠ [] then none
    else
      match d.2 with
      | x :: _ =>
        if x = '.' ∨ x = 'e' ∨ x = 'E' then none
        else some (.num (if p.1 then -(digitsToNat d.1 : Int) else (digitsToNat d.1 : Int)), d.2)
      | [] => some (.num (if p.1 then -(digitsToNat d.1 : Int) else (digitsToNat d.1 : Int)), d.2)

/-- Parse the items of a JSON array (first item onward), given a parser `pv`
for one value; fueled by the number of items. -/
def parseItemsWith (pv : List Char → Option (JVal × List Char)) :
    Nat → List Char → Option (List JVal × List Char)
  | 0, _ => none
  | fuel + 1, cs =>
    match pv cs with
    | none => none
    | some (v, rest) =>
      match skipWs rest with
      | ',' :: r => (parseItemsWith pv fuel r).map (fun x => (v :: x.1, x.2))
      | ']' :: r => some ([v], r)
      | _ => none

/-- Parse the members of a JSON object (first member onward), given a parser
`pv` for one value; fueled by the number of members. -/
def parseMembersWith (pv : List Char → Option (JVal × List Char)) :
    Nat → List Char → Option (List (String × JVal) × List Char)
  | 0, _ => none
  | fuel + 1, cs =>
    match skipWs cs with
    | '"' :: rest =>
      match parseStringChars rest with
      | none => none
      | some (k, r1) =>
        match skipWs r1 with
        | ':' :: r2 =>
          match pv r2 with
          | none => none
          | some (v, r3) =>
            match skipWs r3 with
            | ',' :: r4 =>
              (parseMembersWith pv fuel r4).map
                (fun x => ((String.mk k, v) :: x.1, x.2))
            | '\x7d' :: r4 => some ([(String.mk k, v)], r4)
            | _ => none
        | _ => none
    | _ => none

/-- Parse one JSON value; fueled to keep the recursion structural. -/
def parseJ : Nat → List Char → Option (JVal × List Char)
  | 0, _ => none
  | fuel + 1, cs =>
    match skipWs cs with
    | [] => none
    | c :: rest =>
      if c = '\x7b' then
        match skipWs rest with
        | '\x7d' :: r => some (.obj [], r)
        | cs1 =>
          (parseMembersWith (parseJ fuel) fuel cs1).map
            (fun x => (.obj (x.1.foldl (fun d kv => dictInsert d kv.1 kv.2) []), x.2))
      else if c = '[' then
        match skipWs rest with
        | ']' :: r => some (.arr [], r)
        | cs1 => (parseItemsWith (parseJ fuel) fuel cs1).map (fun x => (.arr x.1, x.2))
      else if c = '"' then
        (parseStringChars rest).map (fun x => (.str (String.mk x.1), x.2))
      else if c = 'n' then
        match rest with
        | 'u' :: 'l' :: 'l' :: r => some (.null, r)
        | _ => none
      else if c = 't' then
        match rest with
        | 'r' :: 'u' :: 'e' :: r => some (.bool true, r)
        | _ => none
      else if c = 'f' then
        match rest with
        | 'a' :: 'l' :: 's' :: 'e' :: r => some (.bool false, r)
        | _ => none
      else parseNumber (c :: rest)

/-- Model of Python `json.loads`: parse one value, allow surrounding
whitespace, reject trailing data; `none` models a raised `JSONDecodeError`. -/
def json_loads (s : String) : Option JVal :=
  match parseJ (2 * s.length + 2) s.data with
  | some (v, rest) => if (skipWs rest).isEmpty then some v else none
  | none => none

/-- `FunctionCallingLanguage.parse_response` (language.py): return the decoded
JSON on success; on a decode error fall back to an implicit termination intent
carrying the raw text. -/
def parse_response (response : String) : JVal :=
  match json_loads response with
  | some v => v
  | none => .obj [("tool", .str "terminate"), ("args", .obj [("message", .str response)])]

/-!  Python `repr`/`str` rendering of decoded values, used by the environment's
validation message (an f-string of a list) and by the loop.  String `repr` is
approximated with plain single quotes (Python's escaping of quotes inside the
text is not modelled; no claim exercises it). -/

/-- Hexadecimal digit for code points below 32. -/
def hexDigit (n : Nat) : Char :=
  if n < 10 then Char.ofNat (48 + n) else Char.ofNat (87 + n)

mutual

/-- Python `repr` of a decoded value. -/
def pyRepr : JVal → String
  | .null => "None"
  | .bool true => "True"
  | .bool false => "False"
  | .num n => toString n
  | .str s => "\x27" ++ s ++ "\x27"
  | .arr xs => "[" ++ pyReprItems xs ++ "]"
  | .obj xs => "\x7b" ++ pyReprPairs xs ++ "\x7d"

/-- Comma-separated `repr` of list items. -/
def pyReprItems : List JVal → String
  | [] => ""
  | [x] => pyRepr x
  | x :: y :: xs => pyRepr x ++ ", " ++ pyReprItems (y :: xs)

/-- Comma-separated `repr` of dict entries. -/
def pyReprPairs : List (String × JVal) → String
  | [] => ""
  | [kv] => "\x27" ++ kv.1 ++ "\x27: " ++ pyRepr kv.2
  | kv :: y :: xs => "\x27" ++ kv.1 ++ "\x27: " ++ pyRepr kv.2 ++ ", " ++ pyReprPairs (y :: xs)

end

/-- Python `str` of a decoded value (strings render verbatim; containers and
other values render as their `repr`). -/
def pyStr : JVal → String
  | .str s => s
  | v => pyRepr v

/-- Python `str` applied to an optional value; `str(None)` is `"None"`. -/
def pyStrOpt : Option JVal → String
  | none => "None"
  | some v => pyStr v

/-- JSON string escaping as done by `json.dumps` with ensure_ascii=False. -/
def jsonEscapeChar (c : Char) : String :=
  if c = '"' then "\\\""
  else if c = '\\' then "\\\\"
  else if c = '\n' then "\\n"
  else if c = '\t' then "\\t"
  else if c = '\r' then "\\r"
  else if c.toNat < 32 then
    "\\u00" ++ String.mk [hexDigit (c.toNat / 16), hexDigit (c.toNat % 16)]
  else String.singleton c

/-- Escape a whole string for JSON output. -/
def jsonEscape (s : String) : String := String.join (s.data.map jsonEscapeChar)

mutual

/-- Model of `json.dumps(value, ensure_ascii=False)` with Python's default
separators, as used by the loop to summarize an execution into history. -/
def jsonDumps : JVal → String
  | .null => "null"
  | .bool true => "true"
  | .bool false => "false"
  | .num n => toString n
  | .str s => "\"" ++ jsonEscape s ++ "\""
  | .arr xs => "[" ++ jsonDumpsItems xs ++ "]"
  | .obj xs => "\x7b" ++ jsonDumpsPairs xs ++ "\x7d"

/-- Comma-separated dump of array items. -/
def jsonDumpsItems : List JVal → String
  | [] => ""
  | [x] => jsonDumps x
  | x :: y :: xs => jsonDumps x ++ ", " ++ jsonDumpsItems (y :: xs)

/-- Comma-separated dump of object members. -/
def jsonDumpsPairs : List (String × JVal) → String
  | [] => ""
  | [kv] => "\"" ++ jsonEscape kv.1 ++ "\": " ++ jsonDumps kv.2
  | kv :: y :: xs =>
    "\"" ++ jsonEscape kv.1 ++ "\": " ++ jsonDumps kv.2 ++ ", " ++ jsonDumpsPairs (y :: xs)

end

/-!  Conversation memory: `AgentMemory` from `agent_core/memory.py`. -/

/-- A stored chat message: the dicts `{"role": ..., "content": ...}` kept in
`AgentMemory.messages`.  Both fields are strings once stored (the type check in
`add_message` guarantees it). -/
structure Msg where
  role : String
  content : String
deriving DecidableEq, Repr

/-- `AgentMemory` (memory.py): a capacity-bounded message list.  The capacity
is a Python `int`, modelled as `Int`. -/
structure AgentMemory where
  max_messages : Int
  messages : List Msg
deriving DecidableEq, Repr

/-- Python slice `l[-m:]` for an integer `m`, as used by `add_message` to trim
memory.  For `m > 0` this keeps the last `m` elements (all of them when
`m ≥ len`); for `m = 0` the slice `l[0:]` keeps everything; for `m < 0` it
drops the first `-m` elements. -/
def pySliceFromNeg {α : Type} (l : List α) (m : Int) : List α :=
  if 0 < m then l.drop (l.length - m.toNat)
  else l.drop (-m).toNat

/-- `AgentMemory.add_message` (memory.py lines 54-61): raise `TypeError` if
either argument is not a string; otherwise append and, when the length exceeds
`max_messages`, keep `messages[-max_messages:]`. -/
def AgentMemory.add_message (mem : AgentMemory) (role content : JVal) :
    Except String AgentMemory :=
  match role, content with
  | .str r, .str c =>
    let msgs := mem.messages ++ [(⟨r, c⟩ : Msg)]
    let msgs :=
      if mem.max_messages < (msgs.length : Int) then
        pySliceFromNeg msgs mem.max_messages
      else msgs
    .ok { mem with messages := msgs }
  | _, _ => .error "Both \x27role\x27 and \x27content\x27 must be strings."

/-- Adding a message at a call site where both arguments are string literals
(every call in `main.py`); the error branch of `add_message` is unreachable
there. -/
def addMsg (mem : AgentMemory) (role content : String) : AgentMemory :=
  match mem.add_message (.str role) (.str content) with
  | .ok m => m
  | .error _ => mem

/-- Fold a whole sequence of `add_message` calls with string role/content. -/
def addAll (mem : AgentMemory) (l : List Msg) : AgentMemory :=
  l.foldl (fun m msg => addMsg m msg.role msg.content) mem

/-- The most recent `n` elements of a list (all of them when `n ≥ length`). -/
def lastN {α : Type} (l : List α) (n : Nat) : List α :=
  l.drop (l.length - n)

/-!  Tool registry: `agent_core/registry.py`. -/

/-- The declared Python type of a function parameter, as inspected through
`get_type_hints` in `_get_tool_metadata`. -/
inductive PyType where
  | str
  | int
  | float
  | bool
  | list
  | dict
  | other (name : String)
deriving DecidableEq, Repr

/-- A Python exception value captured by the environment: its message
(`str(exc)`) and formatted traceback. -/
structure PyExc where
  msg : String
  trace : String
deriving Repr

/-- Keyword arguments of a tool call: a Python dict of string keys. -/
abbrev ArgMap := List (String × JVal)

/-- `_get_json_type` (registry.py lines 35-49): map a Python type to a JSON
schema type, defaulting to "string". -/
def _get_json_type : PyType → String
  | .str => "string"
  | .int => "integer"
  | .float => "number"
  | .bool => "boolean"
  | .list => "array"
  | .dict => "object"
  | .other _ => "string"

/-- One parameter of a Python function signature, as seen by
`inspect.signature` and `get_type_hints`: its name, its declared type hint (if
any), and whether it has a default value. -/
structure PyParam where
  name : String
  hint : Option PyType
  has_default : Bool
deriving DecidableEq, Repr

/-- One step of the schema-derivation loop in `_get_tool_metadata`: skip the
two reserved injection parameters, record the property type, and mark the
parameter required when it has no default. -/
def schemaStep (acc : List (String × JVal) × List JVal) (p : PyParam) :
    List (String × JVal) × List JVal :=
  if p.name = "action_context" ∨ p.name = "action_agent" then acc
  else
    ( acc.1 ++ [(p.name, JVal.obj [("type", .str (_get_json_type (p.hint.getD .str)))])],
      if p.has_default then acc.2 else acc.2 ++ [JVal.str p.name] )

/-- The `args_schema` built by `_get_tool_metadata` when no override is given
(registry.py lines 69-84). -/
def derive_args_schema (params : List PyParam) : JVal :=
  let pr := params.foldl schemaStep ([], [])
  .obj [("type", .str "object"), ("properties", .obj pr.1), ("required", .arr pr.2)]

/-- A registered tool's metadata dict, as built by `_get_tool_metadata` and
stored in the module-level `TOOLS` table. -/
structure ToolMeta where
  tool_name : String
  description : String
  parameters : JVal
  function : ArgMap → Except PyExc JVal
  terminal : Bool
  tags : List String

/-- Python `a or b` for an optional string, where `None` and the empty string
are both falsy. -/
def pyOrStr (a : Option String) (b : String) : String :=
  match a with
  | some s => if s = "" then b else s
  | none => b

/-- `_get_tool_metadata` (registry.py lines 52-93).  The Python function
argument is modelled by its pieces: its `__name__`, its docstring, its
signature parameters and its callable behavior. -/
def _get_tool_metadata (func_name : String) (doc : Option String)
    (params : List PyParam) (func : ArgMap → Except PyExc JVal)
    (tool_name : Option String := none) (description : Option String := none)
    (parameters_override : Option JVal := none) (terminal : Bool := false)
    (tags : Option (List String) := none) : ToolMeta :=
  { tool_name := pyOrStr tool_name func_name,
    description :=
      pyOrStr description
        (match doc with
         | some d => if d = "" then "No description provided." else d.trim
         | none => "No description provided."),
    parameters :=
      match parameters_override with
      | some schema => schema
      | none => derive_args_schema params,
    function := func,
    terminal := terminal,
    tags := tags.getD [] }

/-- `Action` (registry.py lines 130-141): a resolved, invocable tool.  Its
`execute(**kwargs)` is the stored callable, modelled as a function from the
keyword arguments to a result or a raised exception. -/
structure Action where
  name : String
  function : ArgMap → Except PyExc JVal
  description : String
  parameters : JVal
  terminal : Bool

/-- `Goal` (registry.py lines 142-150). -/
structure Goal where
  name : String
  description : String
deriving DecidableEq, Repr

/-- Build an `Action` from a catalog entry, exactly as the registry does in
`PythonActionRegistry.__init__` and `register_terminate_tool`. -/
def metaToAction (name : String) (meta : ToolMeta) : Action :=
  { name := name, function := meta.function, description := meta.description,
    parameters := meta.parameters, terminal := meta.terminal }

/-- `PythonActionRegistry` state: the `actions` dict of `ActionRegistry`
(insertion-ordered) plus the separately tracked terminate descriptor. -/
structure PythonActionRegistry where
  actions : List (String × Action)
  terminate_tool : Option ToolMeta

/-- Python truthiness of an optional list (None and the empty list are
falsy), as used by the tag/name filter conditions. -/
def optTruthy (o : Option (List String)) : Bool :=
  match o with
  | some (_ :: _) => true
  | _ => false

/-- One iteration of the loop in `PythonActionRegistry.__init__` (registry.py
lines 185-201): remember the terminate descriptor before any filtering, then
apply the name filter, then the tag filter, then register. -/
def buildStep (tags tool_names : Option (List String))
    (reg : PythonActionRegistry) (entry : String × ToolMeta) :
    PythonActionRegistry :=
  let reg :=
    if entry.1 = "terminate" then { reg with terminate_tool := some entry.2 }
    else reg
  if optTruthy tool_names && !((tool_names.getD []).contains entry.1) then reg
  else if optTruthy tags && !((tags.getD []).any (fun t => entry.2.tags.contains t)) then reg
  else { reg with actions := dictInsert reg.actions entry.1 (metaToAction entry.1 entry.2) }

/-- `PythonActionRegistry.__init__`: fold the catalog (the module-level `TOOLS`
dict, an insertion-ordered map with unique keys) through `buildStep`. -/
def PythonActionRegistry.build (tools : List (String × ToolMeta))
    (tags tool_names : Option (List String)) : PythonActionRegistry :=
  tools.foldl (buildStep tags tool_names) ⟨[], none⟩

/-- `PythonActionRegistry.register_terminate_tool` (registry.py lines
203-215): raise `RuntimeError` when no terminate descriptor was tracked,
otherwise register it under the name "terminate". -/
def PythonActionRegistry.register_terminate_tool (reg : PythonActionRegistry) :
    Except String PythonActionRegistry :=
  match reg.terminate_tool with
  | none => .error "Terminate tool not found in registry."
  | some meta =>
    .ok { reg with actions := dictInsert reg.actions "terminate" (metaToAction "terminate" meta) }

/-!  Execution environment: `agent_core/environment.py`. -/

/-- The execution record dict returned by `Environment.execute_action`.  The
`timestamp` field of the source record is wall-clock time and outside the
model. -/
structure ExecRecord where
  tool_executed : Bool
  action_name : String
  args_used : ArgMap
  result : Option JVal
  error : Option String
  traceback : Option String

/-- `Environment` (environment.py lines 45-58). -/
structure Environment where
  dry_run : Bool := false
  on_post_execute : Option (Action → ArgMap → JVal → Except PyExc Unit) := none

/-- The `required` list read from an action's parameter schema:
`(action.parameters or {}).get("required", [])`.  A truthy non-dict schema or
a non-list `required` entry is treated as empty; registry-built actions always
carry the object schema built in `_get_tool_metadata`. -/
def requiredOfAction (action : Action) : List JVal :=
  match action.parameters with
  | .obj fields =>
    match dictGet fields "required" with
    | some (.arr l) => l
    | _ => []
  | _ => []

/-- The membership test of the validation loop: a required entry `p` is
missing when `p not in args`; a non-string entry can never be a dict key here,
so it is always missing. -/
def missingPred (args : ArgMap) (p : JVal) : Bool :=
  match p with
  | .str s => !(hasKey args s)
  | _ => true

/-- The list comprehension `[p for p in required if p not in args]`. -/
def missingOf (action : Action) (args : ArgMap) : List JVal :=
  (requiredOfAction action).filter (missingPred args)

/-- `Environment._validate_args` (environment.py lines 63-75): `none` when all
required parameters are present, otherwise the f-string naming the missing
ones. -/
def _validate_args (action : Action) (args : ArgMap) : Option String :=
  let missing := missingOf action args
  if missing.isEmpty then none
  else some ("Missing required parameters: " ++ pyRepr (.arr missing))

/-- `Environment.execute_action` (environment.py lines 77-131): build the base
record, validate, honor dry-run, then invoke the callable, capturing failures.
A configured `on_post_execute` hook runs after success for side effects only;
the source logs its failure and never alters the returned record, so the
returned value is independent of it. -/
def Environment.execute_action (env : Environment) (action : Action)
    (args : ArgMap) : ExecRecord :=
  let record : ExecRecord :=
    { tool_executed := false, action_name := action.name, args_used := args,
      result := none, error := none, traceback := none }
  match _validate_args action args with
  | some validation_err => { record with error := some validation_err }
  | none =>
    if env.dry_run then record
    else
      match action.function args with
      | .ok result => { record with tool_executed := true, result := some result }
      | .error exc => { record with error := some exc.msg, traceback := some exc.trace }

/-!  Prompt construction: `language.py` (`FunctionCallingLanguage`). -/

/-- `Prompt` (base_agent.py): messages, tool metadata and extra metadata. -/
structure Prompt where
  messages : List Msg
  tools : List JVal
  metadata : List (String × JVal) := []

/-- `FunctionCallingLanguage.format_goals`: one system message joining each
goal's name and description with the fixed separator. -/
def format_goals (goals : List Goal) : List Msg :=
  let sep := "\n-------------------\n"
  [⟨"system",
    String.intercalate "\n\n" (goals.map (fun g => g.name ++ ":" ++ sep ++ g.description ++ sep))⟩]

/-- `FunctionCallingLanguage.format_memory`: stored messages verbatim (the
`get` defaults never fire, since stored messages always carry both keys). -/
def format_memory (memory : AgentMemory) : List Msg :=
  memory.messages.map (fun m => ⟨m.role, m.content⟩)

/-- `FunctionCallingLanguage.format_actions`: OpenAI-style tool metadata, with
the description truncated to 1024 characters. -/
def format_actions (actions : List Action) : List JVal :=
  actions.map (fun a =>
    .obj [("type", .str "function"),
          ("function", .obj [("name", .str a.name),
                             ("description", .str (a.description.take 1024)),
                             ("parameters", a.parameters)])])

/-- `FunctionCallingLanguage.construct_prompt`. -/
def construct_prompt (actions : List Action) (goals : List Goal)
    (memory : AgentMemory) : Prompt :=
  { messages := format_goals goals ++ format_memory memory,
    tools := format_actions actions }

/-!  Orchestration loop: `run_agent_loop` in `main.py` (lines 77-165). -/

/-- How the loop ended. -/
inductive LoopExit where
  | exhausted        -- the `for` loop ran all its iterations
  | llmFailed        -- break after the completion call raised
  | modelTerminated  -- break on a missing/"terminate" tool intent
  | terminalAction   -- break after executing a terminal action
deriving DecidableEq, Repr

/-- Loop outcome: final memory, number of loop-body iterations entered, and
the way the loop ended. -/
structure LoopOut where
  memory : AgentMemory
  iterations : Nat
  exit : LoopExit

/-- The execution-record dict as serialized into history by the loop.  The
source record's wall-clock `timestamp` is outside the model and rendered as a
fixed placeholder; no claim depends on the serialized text. -/
def execRecordToJVal (r : ExecRecord) : JVal :=
  .obj [("tool_executed", .bool r.tool_executed),
        ("action_name", .str r.action_name),
        ("args_used", .obj r.args_used),
        ("result", r.result.getD .null),
        ("error", (r.error.map JVal.str).getD .null),
        ("traceback", (r.traceback.map JVal.str).getD .null),
        ("timestamp", .str "1970-01-01T00:00:00+0000")]

/-- The diagnostic appended to history when the model names a tool absent
from the registry (main.py line 140). -/
def unknownToolMsg (t : String) : String :=
  "Requested tool \x27" ++ t ++ "\x27 not found in registry."

/-- The two goals defined inside `run_agent_loop`. -/
def agentGoals : List Goal :=
  [⟨"Gather Information", "Read project files and build a README."⟩,
   ⟨"Terminate", "Call terminate when the README is ready."⟩]

/-- The body of the `for iteration in range(1, max_iterations + 1)` loop.
`client i prompt` models `client.complete(prompt, ...)` on the i-th entered
iteration (0-based here; the source counts from 1), returning the raw reply or
a raised provider exception.  The registry dict and environment are fixed for
the run.  An `Except.error` result models an exception escaping the loop: the
only such case is `parsed.get("tool")` on a non-dict parse result
(`AttributeError`).  A decoded JSON `null` under "tool" and an absent "tool"
key are both Python `None` and indistinguishable through `dict.get`. -/
def loopAux (client : Nat → Prompt → Except String String)
    (registry : List (String × Action)) (env : Environment) :
    AgentMemory → Nat → Nat → Except String LoopOut
  | mem, used, 0 => .ok ⟨mem, used, .exhausted⟩
  | mem, used, remaining + 1 =>
    let actions := registry.map Prod.snd
    let prompt := construct_prompt actions agentGoals mem
    match client used prompt with
    | .error e =>
      .ok ⟨addMsg mem "assistant" ("[error] LLM call failed: " ++ e), used + 1, .llmFailed⟩
    | .ok raw =>
      match parse_response raw with
      | .obj d =>
        let tool_name : Option JVal :=
          match dictGet d "tool" with
          | some JVal.null => none
          | x => x
        let args : ArgMap :=
          match (dictGet d "args").getD (.obj []) with
          | .obj a => a
          | _ => []
        match tool_name with
        | none =>
          .ok ⟨addMsg mem "assistant" (pyStrOpt (dictGet args "message")), used + 1,
               .modelTerminated⟩
        | some tv =>
          match tv with
          | .str s =>
            if s = "terminate" then
              .ok ⟨addMsg mem "assistant" (pyStrOpt (dictGet args "message")), used + 1,
                   .modelTerminated⟩
            else
              match dictGet registry s with
              | none =>
                loopAux client registry env
                  (addMsg mem "assistant" (unknownToolMsg s)) (used + 1) remaining
              | some action =>
                let record := env.execute_action action args
                let content :=
                  jsonDumps (.obj [("tool", tv), ("args", .obj args),
                                   ("result", execRecordToJVal record)])
                let mem2 := addMsg mem "assistant" content
                if action.terminal then .ok ⟨mem2, used + 1, .terminalAction⟩
                else loopAux client registry env mem2 (used + 1) remaining
          | _ =>
            -- a non-string tool value is looked up as a dict key and never found
            loopAux client registry env
              (addMsg mem "assistant" (unknownToolMsg (pyStr tv))) (used + 1) remaining
      | _ => .error "AttributeError: parse result has no attribute get"

/-- `run_agent_loop`: push the user task into memory, then iterate the loop
body up to `max_iterations` times. -/
def run_agent_loop (client : Nat → Prompt → Except String String)
    (registry : List (String × Action)) (env : Environment)
    (task : String) (memory : AgentMemory) (max_iterations : Nat) :
    Except String LoopOut :=
  loopAux client registry env (addMsg memory "user" task) 0 max_iterations

/-!  Supporting lemmas. -/

/-- `addMsg` unfolded: append, then trim with the Python slice when the
capacity is exceeded. -/
theorem addMsg_eq (mem : AgentMemory) (r c : String) :
    addMsg mem r c =
      { mem with messages :=
          if mem.max_messages < ((mem.messages ++ [(⟨r, c⟩ : Msg)]).length : Int) then
            pySliceFromNeg (mem.messages ++ [(⟨r, c⟩ : Msg)]) mem.max_messages
          else mem.messages ++ [(⟨r, c⟩ : Msg)] } := rfl

/-- Taking the last `n` of a list absorbs an earlier trim to the last `n`. -/
theorem lastN_append_absorb {α : Type} (a b : List α) (n : Nat) :
    lastN (lastN a n ++ b) n = lastN (a ++ b) n := by
  unfold lastN
  rw [← List.drop_append_of_le_length (Nat.sub_le a.length n), List.drop_drop]
  congr 1
  simp [List.length_drop, List.length_append]
  omega

/-- One trimmed append with positive capacity keeps exactly the most recent
`max_messages` messages. -/
theorem addMsg_lastN (mem : AgentMemory) (m : Msg)
    (hM : 1 ≤ mem.max_messages) :
    (addMsg mem m.role m.content).messages
      = lastN (mem.messages ++ [m]) mem.max_messages.toNat
      ∨ ((mem.messages.length : Int) + 1 ≤ mem.max_messages
         ∧ (addMsg mem m.role m.content).messages = mem.messages ++ [m]) := by
  rw [addMsg_eq]
  by_cases h : mem.max_messages < ((mem.messages ++ [(⟨m.role, m.content⟩ : Msg)]).length : Int)
  · left
    simp only [if_pos h, pySliceFromNeg, if_pos (by omega : (0 : Int) < mem.max_messages)]
    rfl
  · right
    simp only [if_neg h]
    constructor
    · simp only [List.length_append, List.length_singleton] at h
      push_cast at h ⊢
      omega
    · trivial

/-- With positive capacity, a trimmed append from an in-bound state lands on
the last `max_messages` of the appended sequence. -/
theorem addMsg_lastN_of_le (mem : AgentMemory) (m : Msg)
    (hM : 1 ≤ mem.max_messages) :
    (addMsg mem m.role m.content).messages
      = lastN (mem.messages ++ [m]) mem.max_messages.toNat := by
  rcases addMsg_lastN mem m hM with h | ⟨hle, h⟩
  · exact h
  · rw [h]
    unfold lastN
    have ht : (mem.max_messages.toNat : Int) = mem.max_messages :=
      Int.toNat_of_nonneg (by omega)
    have : (mem.messages ++ [m]).length - mem.max_messages.toNat = 0 := by
      simp only [List.length_append, List.length_singleton]
      omega
    rw [this, List.drop_zero]

/-- `addMsg` never changes the capacity. -/
theorem addMsg_max (mem : AgentMemory) (r c : String) :
    (addMsg mem r c).max_messages = mem.max_messages := by
  rw [addMsg_eq]

/-- `lastN` keeps at most `n` elements. -/
theorem lastN_length_le {α : Type} (l : List α) (n : Nat) :
    (lastN l n).length ≤ n := by
  unfold lastN
  rw [List.length_drop]
  omega

/-- Folding string appends over an in-bound memory with positive capacity
keeps exactly the most recent `max_messages` of the whole appended sequence. -/
theorem addAll_lastN (M : Int) (hM : 1 ≤ M) :
    ∀ (l : List Msg) (mem : AgentMemory), mem.max_messages = M →
      (mem.messages.length : Int) ≤ M →
      (addAll mem l).max_messages = M
      ∧ (addAll mem l).messages = lastN (mem.messages ++ l) M.toNat := by
  intro l
  induction l with
  | nil =>
    intro mem hmax hlen
    refine ⟨hmax, ?_⟩
    unfold addAll lastN
    have ht : (M.toNat : Int) = M := Int.toNat_of_nonneg (by omega)
    have : (mem.messages ++ []).length - M.toNat = 0 := by
      simp only [List.append_nil]
      omega
    rw [List.foldl_nil, this, List.drop_zero, List.append_nil]
  | cons m rest ih =>
    intro mem hmax hlen
    have hM' : 1 ≤ mem.max_messages := by omega
    have hstep : (addMsg mem m.role m.content).messages
        = lastN (mem.messages ++ [m]) M.toNat := by
      rw [← hmax]
      exact addMsg_lastN_of_le mem m hM'
    have hmax' : (addMsg mem m.role m.content).max_messages = M := by
      rw [addMsg_max, hmax]
    have hlen' : ((addMsg mem m.role m.content).messages.length : Int) ≤ M := by
      rw [hstep]
      have := lastN_length_le (mem.messages ++ [m]) M.toNat
      have ht : (M.toNat : Int) = M := Int.toNat_of_nonneg (by omega)
      omega
    have hrec := ih (addMsg mem m.role m.content) hmax' hlen'
    refine ⟨hrec.1, ?_⟩
    have : addAll mem (m :: rest) = addAll (addMsg mem m.role m.content) rest := rfl
    rw [this, hrec.2, hstep, lastN_append_absorb]
    simp

/-!  Claim C1 — FIFO capacity bound of `AgentMemory`.

The claim quantifies over every capacity.  It fails at capacity 0: the trim
`messages[-max_messages:]` is `messages[-0:]`, the whole list, so nothing is
ever evicted and the stored count exceeds the capacity after one append.  For
every positive capacity the claim holds. -/

/-- Counterexample to C1 as stated: with `max_messages = 0`, a single
`add_message` call leaves one stored message, so the stored count exceeds the
capacity (the Python slice `[-0:]` keeps everything). -/
theorem add_message_capacity_zero_violation :
    ((AgentMemory.mk 0 []).add_message (.str "user") (.str "hi")).map
      (fun m => decide ((m.messages.length : Int) ≤ m.max_messages))
      = Except.ok false := rfl

/-- C1 (amended to positive capacities): for every `AgentMemory` with capacity
`max_messages ≥ 1` and every sequence of `add_message` calls with string role
and content, the stored sequence equals the most recent `max_messages`
appended messages in append order, and its length never exceeds the capacity.
The sequence of calls is arbitrary, so the conclusion holds after every call
of any longer sequence as well. -/
theorem add_message_fifo_bound (M : Int) (hM : 1 ≤ M) (l : List Msg) :
    (addAll (AgentMemory.mk M []) l).messages = lastN l M.toNat
    ∧ ((addAll (AgentMemory.mk M []) l).messages.length : Int) ≤ M := by
  have h := addAll_lastN M hM l (AgentMemory.mk M []) rfl (by simp; omega)
  have hmsg : (addAll (AgentMemory.mk M []) l).messages = lastN l M.toNat := by
    rw [h.2]
    rfl
  refine ⟨hmsg, ?_⟩
  rw [hmsg]
  have := lastN_length_le l M.toNat
  have ht : (M.toNat : Int) = M := Int.toNat_of_nonneg (by omega)
  omega

/-- Witness for C1: capacity 2, three appends keep the last two in order and
respect the bound. -/
theorem add_message_fifo_bound_witness :
    (addAll (AgentMemory.mk 2 []) [⟨"user", "1"⟩, ⟨"user", "2"⟩, ⟨"user", "3"⟩]).messages
      = [⟨"user", "2"⟩, ⟨"user", "3"⟩]
    ∧ ((addAll (AgentMemory.mk 2 []) [⟨"user", "1"⟩, ⟨"user", "2"⟩, ⟨"user", "3"⟩]).messages.length : Int) ≤ 2 := by
  have h := add_message_fifo_bound 2 (by decide)
    [⟨"user", "1"⟩, ⟨"user", "2"⟩, ⟨"user", "3"⟩]
  exact ⟨h.1.trans rfl, h.2⟩

/-!  Claim C9 — type contract of `add_message`. -/

/-- Any Python negative-start slice is a suffix. -/
theorem pySliceFromNeg_suffix {α : Type} (l : List α) (m : Int) :
    pySliceFromNeg l m <:+ l := by
  unfold pySliceFromNeg
  split
  · exact List.drop_suffix _ _
  · exact List.drop_suffix _ _

/-- C9: `add_message` fails with the type-contract error exactly when role or
content is not a string, leaving the stored sequence unchanged (no new state
is produced); when both are strings it appends the message — the new sequence
is a suffix of the old sequence plus the new message (eviction only from the
front), it is exactly the old sequence plus the new message while the capacity
is not exceeded, and with positive capacity the new message is always
retained at the end. -/
theorem add_message_type_contract (mem : AgentMemory) (role content : JVal) :
    (¬ (role.isStr = true ∧ content.isStr = true) →
      mem.add_message role content
        = .error "Both \x27role\x27 and \x27content\x27 must be strings.")
    ∧ (∀ r c, role = .str r → content = .str c →
        ∃ mem', mem.add_message role content = .ok mem'
          ∧ mem'.max_messages = mem.max_messages
          ∧ mem'.messages <:+ mem.messages ++ [(⟨r, c⟩ : Msg)]
          ∧ ((mem.messages.length : Int) + 1 ≤ mem.max_messages →
              mem'.messages = mem.messages ++ [(⟨r, c⟩ : Msg)])
          ∧ (1 ≤ mem.max_messages →
              mem'.messages.getLast? = some (⟨r, c⟩ : Msg))) := by
  constructor
  · intro hns
    cases role with
    | str s =>
      cases content with
      | str t => exact absurd ⟨rfl, rfl⟩ hns
      | null => rfl
      | bool b => rfl
      | num n => rfl
      | arr xs => rfl
      | obj fs => rfl
    | null => cases content <;> rfl
    | bool b => cases content <;> rfl
    | num n => cases content <;> rfl
    | arr xs => cases content <;> rfl
    | obj fs => cases content <;> rfl
  · rintro r c rfl rfl
    refine ⟨_, rfl, rfl, ?_, ?_, ?_⟩
    · dsimp only
      split
      · exact (pySliceFromNeg_suffix _ _)
      · exact List.suffix_refl _
    · intro hle
      dsimp only
      rw [if_neg]
      simp only [List.length_append, List.length_singleton]
      push_cast
      omega
    · intro hM
      dsimp only
      split
      · rename_i h
        unfold pySliceFromNeg
        rw [if_pos (by omega : (0 : Int) < mem.max_messages)]
        have hn : (mem.messages ++ [(⟨r, c⟩ : Msg)]).length - mem.max_messages.toNat
            ≤ mem.messages.length := by
          simp only [List.length_append, List.length_singleton]
          have ht : 1 ≤ mem.max_messages.toNat := by omega
          omega
        rw [List.drop_append_of_le_length hn, List.getLast?_concat]
      · rw [List.getLast?_concat]

/-- Witness for C9: a non-string role raises the type error; string arguments
append at the back and retain the new message. -/
theorem add_message_type_contract_witness :
    (AgentMemory.mk 2 []).add_message (.num 3) (.str "x")
      = .error "Both \x27role\x27 and \x27content\x27 must be strings."
    ∧ ∃ mem', (AgentMemory.mk 2 [⟨"user", "a"⟩, ⟨"user", "b"⟩]).add_message
          (.str "assistant") (.str "c") = .ok mem'
        ∧ mem'.messages.getLast? = some ⟨"assistant", "c"⟩ := by
  constructor
  · exact (add_message_type_contract (AgentMemory.mk 2 []) (.num 3) (.str "x")).1
      (by simp [JVal.isStr])
  · obtain ⟨mem', h1, -, -, -, h5⟩ :=
      (add_message_type_contract (AgentMemory.mk 2 [⟨"user", "a"⟩, ⟨"user", "b"⟩])
        (.str "assistant") (.str "c")).2 "assistant" "c" rfl rfl
    exact ⟨mem', h1, h5 (by decide)⟩

/-!  Claims C5 and C10 — `parse_response`. -/

/-- C5: `parse_response` is total — for every input string it either returns
the decoded JSON value directly (when decoding succeeds) or falls back to the
termination intent carrying the raw text (when decoding fails); in particular
the two specified examples decode as stated. -/
theorem parse_response_total_spec :
    parse_response "\x7b\"tool\":\"read_project_file\",\"args\":\x7b\"name\":\"a.py\"\x7d\x7d"
      = .obj [("tool", .str "read_project_file"), ("args", .obj [("name", .str "a.py")])]
    ∧ parse_response "All done"
      = .obj [("tool", .str "terminate"), ("args", .obj [("message", .str "All done")])]
    ∧ ∀ s : String,
        (∃ v, json_loads s = some v ∧ parse_response s = v)
      ∨ (json_loads s = none
         ∧ parse_response s
             = .obj [("tool", .str "terminate"), ("args", .obj [("message", .str s)])]) := by
  refine ⟨rfl, rfl, fun s => ?_⟩
  cases h : json_loads s with
  | none => exact .inr ⟨rfl, by simp [parse_response, h]⟩
  | some v => exact .inl ⟨v, rfl, by simp [parse_response, h]⟩

/-- C10: on valid JSON that is not an object, `parse_response` returns the
decoded value unchanged — the terminate fallback is only the decode-failure
branch — so the result need not have the intent shape, as the examples
"42", "[1, 2]" and a quoted string show. -/
theorem parse_response_nonobject_passthrough :
    (∀ s v, json_loads s = some v → parse_response s = v)
    ∧ parse_response "42" = .num 42
    ∧ parse_response "[1, 2]" = .arr [.num 1, .num 2]
    ∧ parse_response "\"hi\"" = .str "hi"
    ∧ JVal.isObj (parse_response "42") = false :=
  ⟨fun s v h => by simp [parse_response, h], rfl, rfl, rfl, rfl⟩

/-- Witness for C10 at the input "42". -/
theorem parse_response_nonobject_passthrough_witness :
    json_loads "42" = some (.num 42) ∧ parse_response "42" = .num 42 :=
  ⟨rfl, parse_response_nonobject_passthrough.1 "42" (.num 42) rfl⟩

/-!  Claims C2, C3, C4 — the execution environment.

Validation runs before the dry-run check in `execute_action`, so a dry run
with missing required arguments returns the validation error, not a null
error: C2 as stated fails and is amended accordingly. -/

/-- Replacing an action's callable never changes its validation outcome. -/
theorem _validate_args_function_free (action : Action) (args : ArgMap)
    (g : ArgMap → Except PyExc JVal) :
    _validate_args { action with function := g } args = _validate_args action args := rfl

/-- A sample action whose schema requires the single parameter "x". -/
def actReqX : Action :=
  { name := "sample",
    function := fun _ => .ok .null,
    description := "Sample action",
    parameters := .obj [("type", .str "object"),
                        ("properties", .obj [("x", .obj [("type", .str "string")])]),
                        ("required", .arr [.str "x"])],
    terminal := false }

/-- Counterexample to C2 as stated: in dry-run mode with the required
argument "x" absent, the returned record's `error` is the validation message,
not null — validation runs before the dry-run branch. -/
theorem dry_run_validation_error :
    (Environment.execute_action ⟨true, none⟩ actReqX []).error
      = some "Missing required parameters: [\x27x\x27]"
    ∧ (Environment.execute_action ⟨true, none⟩ actReqX []).error ≠ none := by
  have hr : pyRepr (.arr [JVal.str "x"]) = "[\x27x\x27]" := by
    simp [pyRepr, pyReprItems]
  have hv0 : _validate_args actReqX []
      = some ("Missing required parameters: " ++ pyRepr (.arr [JVal.str "x"])) := rfl
  have hv : _validate_args actReqX []
      = some "Missing required parameters: [\x27x\x27]" := by
    rw [hv0, hr]
    rfl
  have : (Environment.execute_action ⟨true, none⟩ actReqX []).error
      = some "Missing required parameters: [\x27x\x27]" := by
    simp [Environment.execute_action, hv]
  exact ⟨this, by rw [this]; exact Option.noConfusion⟩

/-- C2 (amended): with dry-run enabled, `execute_action` never invokes the
action's callable (the returned record is independent of it) and always
returns `executed = false`; the record's `error` is null whenever the
arguments pass required-parameter validation (on a validation failure it
carries the validation message instead). -/
theorem dry_run_no_invoke (action : Action) (args : ArgMap) (env : Environment)
    (hdry : env.dry_run = true) :
    (env.execute_action action args).tool_executed = false
    ∧ (∀ g, env.execute_action { action with function := g } args
        = env.execute_action action args)
    ∧ (_validate_args action args = none →
        (env.execute_action action args).error = none) := by
  refine ⟨?_, ?_, ?_⟩
  · cases hv : _validate_args action args with
    | some e => simp [Environment.execute_action, hv]
    | none => simp [Environment.execute_action, hv, hdry]
  · intro g
    cases hv : _validate_args action args with
    | some e =>
      simp [Environment.execute_action, hv, _validate_args_function_free]
    | none =>
      simp [Environment.execute_action, hv, _validate_args_function_free, hdry]
  · intro hv
    simp [Environment.execute_action, hv, hdry]

/-- Witness for the amended C2: dry run with valid arguments yields
`executed = false`, `error = none`, and the record does not depend on the
callable. -/
theorem dry_run_no_invoke_witness :
    (Environment.execute_action ⟨true, none⟩ actReqX [("x", .str "v")]).tool_executed = false
    ∧ (Environment.execute_action ⟨true, none⟩
          { actReqX with function := fun _ => .error ⟨"boom", "tb"⟩ } [("x", .str "v")]
        = Environment.execute_action ⟨true, none⟩ actReqX [("x", .str "v")])
    ∧ (Environment.execute_action ⟨true, none⟩ actReqX [("x", .str "v")]).error = none := by
  obtain ⟨h1, h2, h3⟩ := dry_run_no_invoke actReqX [("x", .str "v")] ⟨true, none⟩ rfl
  exact ⟨h1, h2 _, h3 rfl⟩

/-- C3: every record returned by `execute_action` satisfies the invariant
(`executed = true` implies a null error, and a non-null error implies
`executed = false`); and a callable that raises is captured into a returned
record carrying the exception's message and traceback, never propagated. -/
theorem exec_record_invariant (env : Environment) (action : Action) (args : ArgMap) :
    ((env.execute_action action args).tool_executed = true →
      (env.execute_action action args).error = none)
    ∧ ((env.execute_action action args).error ≠ none →
      (env.execute_action action args).tool_executed = false)
    ∧ (∀ exc, _validate_args action args = none → env.dry_run = false →
        action.function args = .error exc →
        env.execute_action action args
          = { tool_executed := false, action_name := action.name, args_used := args,
              result := none, error := some exc.msg, traceback := some exc.trace }) := by
  refine ⟨?_, ?_, ?_⟩
  · cases hv : _validate_args action args with
    | some e => simp [Environment.execute_action, hv]
    | none =>
      cases hd : env.dry_run with
      | true => simp [Environment.execute_action, hv, hd]
      | false =>
        cases hf : action.function args with
        | ok v => simp [Environment.execute_action, hv, hd, hf]
        | error exc => simp [Environment.execute_action, hv, hd, hf]
  · cases hv : _validate_args action args with
    | some e => simp [Environment.execute_action, hv]
    | none =>
      cases hd : env.dry_run with
      | true => simp [Environment.execute_action, hv, hd]
      | false =>
        cases hf : action.function args with
        | ok v => simp [Environment.execute_action, hv, hd, hf]
        | error exc => simp [Environment.execute_action, hv, hd, hf]
  · intro exc hv hd hf
    simp [Environment.execute_action, hv, hd, hf]

/-- An action whose callable always raises. -/
def actBoom : Action :=
  { name := "boom_tool",
    function := fun _ => .error ⟨"boom", "tb"⟩,
    description := "Always fails",
    parameters := .obj [("type", .str "object"), ("properties", .obj []),
                        ("required", .arr [])],
    terminal := false }

/-- Witness for C3: a raising callable yields a returned record with
`executed = false` and the captured message and traceback. -/
theorem exec_record_invariant_witness :
    Environment.execute_action ⟨false, none⟩ actBoom []
      = { tool_executed := false, action_name := "boom_tool", args_used := [],
          result := none, error := some "boom", traceback := some "tb" } :=
  (exec_record_invariant ⟨false, none⟩ actBoom []).2.2 ⟨"boom", "tb"⟩ rfl rfl rfl

/-- C4: when some required parameter is absent from the arguments (and the
sandbox is not in dry-run mode), `execute_action` returns `executed = false`
with an error naming the missing parameters, and never invokes the callable
(the record is independent of it). -/
theorem missing_args_no_invoke (env : Environment) (action : Action) (args : ArgMap)
    (hdry : env.dry_run = false)
    (hmiss : ∃ p ∈ requiredOfAction action, missingPred args p = true) :
    (env.execute_action action args).tool_executed = false
    ∧ (env.execute_action action args).error
        = some ("Missing required parameters: " ++ pyRepr (.arr (missingOf action args)))
    ∧ missingOf action args ≠ []
    ∧ ∀ g, env.execute_action { action with function := g } args
        = env.execute_action action args := by
  obtain ⟨p, hp, hmp⟩ := hmiss
  have hne : missingOf action args ≠ [] := by
    intro h0
    have hmem : p ∈ missingOf action args := List.mem_filter.mpr ⟨hp, hmp⟩
    rw [h0] at hmem
    exact absurd hmem (List.not_mem_nil p)
  have hv : _validate_args action args
      = some ("Missing required parameters: " ++ pyRepr (.arr (missingOf action args))) := by
    unfold _validate_args
    rw [if_neg]
    intro h
    exact hne (List.isEmpty_iff.mp h)
  refine ⟨?_, ?_, hne, ?_⟩
  · simp [Environment.execute_action, hv]
  · simp [Environment.execute_action, hv]
  · intro g
    simp [Environment.execute_action, hv, _validate_args_function_free]

/-- Witness for C4: calling the sample action without its required "x" fails
validation, names the missing parameter, and is independent of the callable. -/
theorem missing_args_no_invoke_witness :
    (Environment.execute_action ⟨false, none⟩ actReqX []).tool_executed = false
    ∧ (Environment.execute_action ⟨false, none⟩ actReqX []).error
        = some "Missing required parameters: [\x27x\x27]"
    ∧ (Environment.execute_action ⟨false, none⟩
          { actReqX with function := fun _ => .ok (.str "ran") } []
        = Environment.execute_action ⟨false, none⟩ actReqX []) := by
  obtain ⟨h1, h2, h3, h4⟩ := missing_args_no_invoke ⟨false, none⟩ actReqX [] rfl
    ⟨.str "x", by simp [requiredOfAction, actReqX, dictGet],
      by simp [missingPred, hasKey]⟩
  refine ⟨h1, ?_, h4 _⟩
  rw [h2]
  have hm : missingOf actReqX [] = [JVal.str "x"] := rfl
  have hr : pyRepr (.arr [JVal.str "x"]) = "[\x27x\x27]" := by
    simp [pyRepr, pyReprItems]
  rw [hm, hr]
  rfl

/-!  Claim C6 — schema derivation in `_get_tool_metadata`. -/

/-- Modelled from the spec's type table, for comparison with the derived
schema: string→"string", integer→"integer", float→"number",
boolean→"boolean", sequence→"array", mapping→"object", and "string" both for
unrecognized types and for parameters without a hint. -/
def specJsonType : Option PyType → String
  | some .str => "string"
  | some .int => "integer"
  | some .float => "number"
  | some .bool => "boolean"
  | some .list => "array"
  | some .dict => "object"
  | some (.other _) => "string"
  | none => "string"

/-- Whether a parameter survives the reserved-name filter of the derivation
loop. -/
def keepParam (p : PyParam) : Bool :=
  !(decide (p.name = "action_context" ∨ p.name = "action_agent"))

/-- The "properties" dict of a derived schema. -/
def schemaProps : JVal → List (String × JVal)
  | .obj fields =>
    match dictGet fields "properties" with
    | some (.obj ps) => ps
    | _ => []
  | _ => []

/-- The "required" list of a derived schema. -/
def schemaReq : JVal → List JVal
  | .obj fields =>
    match dictGet fields "required" with
    | some (.arr l) => l
    | _ => []
  | _ => []

/-- Closed form of the schema-derivation fold: properties collect the kept
parameters in order with their mapped types; required collects the kept
parameters without defaults. -/
theorem schema_foldl (params : List PyParam) (acc : List (String × JVal) × List JVal) :
    params.foldl schemaStep acc
      = (acc.1 ++ (params.filter keepParam).map
            (fun p => (p.name, JVal.obj [("type", .str (_get_json_type (p.hint.getD .str)))])),
         acc.2 ++ (params.filter (fun p => keepParam p && !p.has_default)).map
            (fun p => JVal.str p.name)) := by
  induction params generalizing acc with
  | nil => simp
  | cons p ps ih =>
    rw [List.foldl_cons, ih]
    by_cases h : p.name = "action_context" ∨ p.name = "action_agent"
    · have hk : keepParam p = false := by simp [keepParam, h]
      unfold schemaStep
      rw [if_pos h]
      simp [List.filter_cons, hk]
    · have hk : keepParam p = true := by simp [keepParam, h]
      unfold schemaStep
      rw [if_neg h]
      cases hd : p.has_default with
      | true => simp [List.filter_cons, hk, hd]
      | false => simp [List.filter_cons, hk, hd]

/-- The source's type mapping applied after the missing-hint default agrees
with the spec's table. -/
theorem get_json_type_eq_spec (h : Option PyType) :
    _get_json_type (h.getD .str) = specJsonType h := by
  cases h with
  | none => rfl
  | some t => cases t <;> rfl

/-- Lookup misses a mapped association list when the key names no element. -/
theorem dictGet_map_params_none {β : Type} (l : List PyParam) (f : PyParam → β)
    (n : String) (h : n ∉ l.map PyParam.name) :
    dictGet (l.map (fun p => (p.name, f p))) n = none := by
  unfold dictGet
  rw [List.find?_eq_none.mpr]
  · rfl
  · intro x hx
    simp only [List.mem_map] at hx
    obtain ⟨p, hp, rfl⟩ := hx
    simp only [beq_iff_eq]
    intro hc
    exact h (List.mem_map.mpr ⟨p, hp, hc⟩)

/-- Lookup hits the unique element of a mapped association list whose names
have no duplicates. -/
theorem dictGet_map_params_some {β : Type} (l : List PyParam) (f : PyParam → β)
    (p : PyParam) (hmem : p ∈ l) (hnd : (l.map PyParam.name).Nodup) :
    dictGet (l.map (fun q => (q.name, f q))) p.name = some (f p) := by
  induction l with
  | nil => cases hmem
  | cons q qs ih =>
    rw [List.map_cons]
    have hnd' : (qs.map PyParam.name).Nodup := (List.nodup_cons.mp hnd).2
    by_cases h : q.name = p.name
    · have hpq : p = q := by
        rcases List.mem_cons.mp hmem with rfl | hin
        · rfl
        · exfalso
          have hmm : p.name ∈ qs.map PyParam.name := List.mem_map.mpr ⟨p, hin, rfl⟩
          exact (List.nodup_cons.mp hnd).1 (h ▸ hmm)
      subst hpq
      unfold dictGet
      rw [List.find?_cons_of_pos _ (by simpa using h)]
      rfl
    · have hin : p ∈ qs := by
        rcases List.mem_cons.mp hmem with rfl | hin
        · exact absurd rfl h
        · exact hin
      unfold dictGet
      rw [List.find?_cons_of_neg _ (by simpa using h)]
      exact ih hin hnd'

/-- C6: for a function registered without a schema override and with
signature parameter names pairwise distinct, the derived schema maps every
non-reserved parameter to exactly the spec's JSON type for its hint, marks it
required precisely when it has no default, excludes the two reserved
injection parameters from both properties and required, and its required list
contains nothing else. -/
theorem schema_derivation_spec (func_name : String) (doc : Option String)
    (params : List PyParam) (func : ArgMap → Except PyExc JVal)
    (tool_name description : Option String) (terminal : Bool)
    (tags : Option (List String))
    (hnd : (params.map PyParam.name).Nodup) :
    (∀ p ∈ params,
      ((p.name = "action_context" ∨ p.name = "action_agent") →
        dictGet (schemaProps ((_get_tool_metadata func_name doc params func
            tool_name description none terminal tags).parameters)) p.name = none
        ∧ JVal.str p.name ∉ schemaReq ((_get_tool_metadata func_name doc params func
            tool_name description none terminal tags).parameters))
      ∧ (¬(p.name = "action_context" ∨ p.name = "action_agent") →
        dictGet (schemaProps ((_get_tool_metadata func_name doc params func
            tool_name description none terminal tags).parameters)) p.name
          = some (.obj [("type", .str (specJsonType p.hint))])
        ∧ (JVal.str p.name ∈ schemaReq ((_get_tool_metadata func_name doc params func
            tool_name description none terminal tags).parameters)
            ↔ p.has_default = false)))
    ∧ (∀ v ∈ schemaReq ((_get_tool_metadata func_name doc params func
          tool_name description none terminal tags).parameters),
        ∃ p, p ∈ params ∧ v = .str p.name ∧ p.has_default = false
          ∧ ¬(p.name = "action_context" ∨ p.name = "action_agent")) := by
  have hprops : schemaProps ((_get_tool_metadata func_name doc params func
      tool_name description none terminal tags).parameters)
      = (params.filter keepParam).map
          (fun p => (p.name, JVal.obj [("type", .str (_get_json_type (p.hint.getD .str)))])) := by
    have : schemaProps ((_get_tool_metadata func_name doc params func
        tool_name description none terminal tags).parameters)
        = (params.foldl schemaStep ([], [])).1 := rfl
    rw [this, schema_foldl]
    simp
  have hreq : schemaReq ((_get_tool_metadata func_name doc params func
      tool_name description none terminal tags).parameters)
      = (params.filter (fun p => keepParam p && !p.has_default)).map
          (fun p => JVal.str p.name) := by
    have : schemaReq ((_get_tool_metadata func_name doc params func
        tool_name description none terminal tags).parameters)
        = (params.foldl schemaStep ([], [])).2 := rfl
    rw [this, schema_foldl]
    simp
  have hndk : ((params.filter keepParam).map PyParam.name).Nodup :=
    List.Nodup.sublist ((List.filter_sublist params).map PyParam.name) hnd
  constructor
  · intro p hp
    constructor
    · intro hres
      rw [hprops, hreq]
      constructor
      · apply dictGet_map_params_none
        intro hc
        simp only [List.mem_map] at hc
        obtain ⟨q, hq, hqn⟩ := hc
        have hkq : ¬(q.name = "action_context" ∨ q.name = "action_agent") := by
          simpa [keepParam] using (List.mem_filter.mp hq).2
        rw [hqn] at hkq
        exact hkq hres
      · intro hc
        simp only [List.mem_map] at hc
        obtain ⟨q, hq, hqn⟩ := hc
        have hkq : keepParam q = true := by
          have h2 := (List.mem_filter.mp hq).2
          simp only [Bool.and_eq_true] at h2
          exact h2.1
        have hkq' : ¬(q.name = "action_context" ∨ q.name = "action_agent") := by
          simpa [keepParam] using hkq
        have hqname : q.name = p.name := JVal.str.inj hqn
        rw [hqname] at hkq'
        exact hkq' hres
    · intro hres
      have hk : keepParam p = true := by
        simp [keepParam, hres]
      have hpk : p ∈ params.filter keepParam := List.mem_filter.mpr ⟨hp, hk⟩
      constructor
      · rw [hprops]
        rw [dictGet_map_params_some (params.filter keepParam)
          (fun q => JVal.obj [("type", .str (_get_json_type (q.hint.getD .str)))]) p hpk hndk]
        simp only [get_json_type_eq_spec]
      · rw [hreq]
        constructor
        · intro hmem
          simp only [List.mem_map] at hmem
          obtain ⟨q, hq, hqn⟩ := hmem
          have hqp : q = p := by
            have hqname : q.name = p.name := JVal.str.inj hqn
            exact List.inj_on_of_nodup_map hnd (List.mem_of_mem_filter hq) hp hqname
          have h2 := (List.mem_filter.mp hq).2
          rw [hqp] at h2
          simp only [Bool.and_eq_true, Bool.not_eq_true'] at h2
          exact h2.2
        · intro hd
          refine List.mem_map.mpr ⟨p, List.mem_filter.mpr ⟨hp, ?_⟩, rfl⟩
          rw [hk, hd]
          rfl
  · intro v hv
    rw [hreq] at hv
    simp only [List.mem_map] at hv
    obtain ⟨q, hq, rfl⟩ := hv
    have hqf := List.mem_filter.mp hq
    have h2 := hqf.2
    simp only [Bool.and_eq_true, Bool.not_eq_true'] at h2
    refine ⟨q, hqf.1, rfl, h2.2, ?_⟩
    simpa [keepParam] using h2.1

/-- Witness for C6: a three-parameter signature (a required string, an
integer with a default, and the reserved context handle) derives the expected
properties and required set. -/
theorem schema_derivation_spec_witness :
    dictGet (schemaProps ((_get_tool_metadata "sample_tool" none
        [⟨"name", some .str, false⟩, ⟨"count", some .int, true⟩,
         ⟨"action_context", none, false⟩]
        (fun _ => .ok .null) none none none false none).parameters)) "name"
      = some (.obj [("type", .str "string")])
    ∧ JVal.str "name" ∈ schemaReq ((_get_tool_metadata "sample_tool" none
        [⟨"name", some .str, false⟩, ⟨"count", some .int, true⟩,
         ⟨"action_context", none, false⟩]
        (fun _ => .ok .null) none none none false none).parameters)
    ∧ dictGet (schemaProps ((_get_tool_metadata "sample_tool" none
        [⟨"name", some .str, false⟩, ⟨"count", some .int, true⟩,
         ⟨"action_context", none, false⟩]
        (fun _ => .ok .null) none none none false none).parameters)) "action_context"
      = none := by
  have h := schema_derivation_spec "sample_tool" none
    [⟨"name", some .str, false⟩, ⟨"count", some .int, true⟩,
     ⟨"action_context", none, false⟩]
    (fun _ => .ok .null) none none false none (by decide)
  have h1 := (h.1 ⟨"name", some .str, false⟩ (by simp)).2 (by simp)
  have h3 := (h.1 ⟨"action_context", none, false⟩ (by simp)).1 (by simp)
  exact ⟨h1.1, h1.2.mpr rfl, h3.1⟩

/-!  Claim C7 — terminate tracking in `PythonActionRegistry`. -/

/-- A `buildStep` updates the tracked terminate descriptor exactly on the
entry named "terminate", regardless of the filters. -/
theorem buildStep_tt (tags tool_names : Option (List String))
    (reg : PythonActionRegistry) (e : String × ToolMeta) :
    (buildStep tags tool_names reg e).terminate_tool
      = if e.1 = "terminate" then some e.2 else reg.terminate_tool := by
  unfold buildStep
  by_cases h : e.1 = "terminate"
  · rw [if_pos h, if_pos h]
    split
    · rfl
    · split
      · rfl
      · rfl
  · rw [if_neg h, if_neg h]
    split
    · rfl
    · split
      · rfl
      · rfl

/-- Folding entries none of which is named "terminate" leaves the tracked
descriptor unchanged. -/
theorem build_fold_tt_not_mem (tags tool_names : Option (List String)) :
    ∀ (tools : List (String × ToolMeta)) (acc : PythonActionRegistry),
      "terminate" ∉ tools.map Prod.fst →
      (tools.foldl (buildStep tags tool_names) acc).terminate_tool
        = acc.terminate_tool := by
  intro tools
  induction tools with
  | nil => intro acc _; rfl
  | cons e rest ih =>
    intro acc h
    rw [List.foldl_cons, ih (buildStep tags tool_names acc e)
        (fun hc => h (List.mem_cons.mpr (.inr hc))), buildStep_tt, if_neg]
    intro hc
    exact h (List.mem_cons.mpr (.inl hc.symm))

/-- Folding a catalog with pairwise-distinct keys that contains the entry
("terminate", meta) tracks exactly that descriptor. -/
theorem build_fold_tt_mem (tags tool_names : Option (List String)) :
    ∀ (tools : List (String × ToolMeta)) (acc : PythonActionRegistry)
      (meta : ToolMeta), (tools.map Prod.fst).Nodup →
      ("terminate", meta) ∈ tools →
      (tools.foldl (buildStep tags tool_names) acc).terminate_tool = some meta := by
  intro tools
  induction tools with
  | nil => intro acc meta _ h; cases h
  | cons e rest ih =>
    intro acc meta hnd hmem
    rw [List.foldl_cons]
    rcases List.mem_cons.mp hmem with heq | hin
    · have hnotin : "terminate" ∉ rest.map Prod.fst := by
        have h1 := (List.nodup_cons.mp hnd).1
        rw [← heq] at h1
        exact h1
      rw [build_fold_tt_not_mem tags tool_names rest _ hnotin, buildStep_tt, ← heq]
      rw [if_pos rfl]
    · exact ih (buildStep tags tool_names acc e) meta (List.nodup_cons.mp hnd).2 hin

/-- Lookup on a nonempty dict: hit the head or look in the tail. -/
theorem dictGet_cons {α : Type} (e : String × α) (d : List (String × α))
    (k : String) :
    dictGet (e :: d) k = if e.1 == k then some e.2 else dictGet d k := by
  unfold dictGet
  rw [List.find?_cons]
  cases hbeq : (e.1 == k)
  · simp [hbeq]
  · simp [hbeq]

/-- In-place replacement at an existing key is found by lookup. -/
theorem find_map_insert {α : Type} (k : String) (v : α) :
    ∀ d : List (String × α), d.any (fun e => e.1 == k) = true →
      dictGet (d.map (fun e => if e.1 == k then (k, v) else e)) k = some v := by
  intro d
  induction d with
  | nil => intro h; cases h
  | cons e rest ih =>
    intro hany
    rw [List.map_cons, dictGet_cons]
    by_cases he : (e.1 == k) = true
    · simp [he]
    · have he' : (e.1 == k) = false := by simpa using he
      have hrest : rest.any (fun x => x.1 == k) = true := by
        rcases List.any_eq_true.mp hany with ⟨x, hx, hpx⟩
        rcases List.mem_cons.mp hx with rfl | hxin
        · exact absurd hpx he
        · exact List.any_eq_true.mpr ⟨x, hxin, hpx⟩
      simp only [he', if_false, Bool.false_eq_true]
      exact ih hrest

/-- Appending a fresh key is found by lookup. -/
theorem find_append_insert {α : Type} (k : String) (v : α) :
    ∀ d : List (String × α), d.any (fun e => e.1 == k) = false →
      dictGet (d ++ [(k, v)]) k = some v := by
  intro d
  induction d with
  | nil =>
    intro _
    rw [List.nil_append, dictGet_cons]
    simp
  | cons e rest ih =>
    intro hany
    simp only [List.any_cons, Bool.or_eq_false_iff] at hany
    rw [List.cons_append, dictGet_cons]
    simp only [hany.1, if_false, Bool.false_eq_true]
    exact ih hany.2

/-- Inserting a key into a Python dict makes a lookup of that key return the
inserted value. -/
theorem dictGet_dictInsert_self {α : Type} (d : List (String × α)) (k : String)
    (v : α) : dictGet (dictInsert d k v) k = some v := by
  unfold dictInsert
  by_cases hany : d.any (fun e => e.1 == k) = true
  · rw [if_pos hany]
    exact find_map_insert k v d hany
  · rw [if_neg hany]
    apply find_append_insert k v d
    simp only [Bool.not_eq_true] at hany
    exact hany

/-- C7: building a registry from a catalog with pairwise-distinct names
tracks the descriptor named "terminate" regardless of the tag/name filters,
so `register_terminate_tool` afterwards succeeds and registers it; and
`register_terminate_tool` fails with the configuration error precisely when
the catalog has no descriptor named "terminate". -/
theorem terminate_tracking_spec (tools : List (String × ToolMeta))
    (tags tool_names : Option (List String))
    (hnd : (tools.map Prod.fst).Nodup) :
    (∀ meta, ("terminate", meta) ∈ tools →
        (PythonActionRegistry.build tools tags tool_names).terminate_tool = some meta
      ∧ ∃ reg', (PythonActionRegistry.build tools tags tool_names).register_terminate_tool
            = .ok reg'
          ∧ dictGet reg'.actions "terminate" = some (metaToAction "terminate" meta))
    ∧ ("terminate" ∉ tools.map Prod.fst →
        (PythonActionRegistry.build tools tags tool_names).register_terminate_tool
          = .error "Terminate tool not found in registry.") := by
  constructor
  · intro meta hmem
    have htt : (PythonActionRegistry.build tools tags tool_names).terminate_tool
        = some meta := build_fold_tt_mem tags tool_names tools _ meta hnd hmem
    refine ⟨htt, ?_⟩
    unfold PythonActionRegistry.register_terminate_tool
    rw [htt]
    exact ⟨_, rfl, dictGet_dictInsert_self _ _ _⟩
  · intro hnot
    have htt : (PythonActionRegistry.build tools tags tool_names).terminate_tool
        = none := build_fold_tt_not_mem tags tool_names tools _ hnot
    unfold PythonActionRegistry.register_terminate_tool
    rw [htt]

/-- A sample terminate descriptor, tagged "system" only. -/
def metaTerminateW : ToolMeta :=
  { tool_name := "terminate",
    description := "Ends the loop",
    parameters := .obj [("type", .str "object"),
                        ("properties", .obj [("message", .obj [("type", .str "string")])]),
                        ("required", .arr [.str "message"])],
    function := fun _ => .ok .null,
    terminal := true,
    tags := ["system"] }

/-- A sample file tool, tagged "file_operations". -/
def metaReadW : ToolMeta :=
  { tool_name := "read_project_file",
    description := "Reads a file",
    parameters := .obj [("type", .str "object"), ("properties", .obj []),
                        ("required", .arr [])],
    function := fun _ => .ok .null,
    terminal := false,
    tags := ["file_operations"] }

/-- Witness for C7: with a tag filter that excludes the terminate descriptor,
it is still tracked and can be registered afterwards; moreover the filtered
build did not register it among the actions. -/
theorem terminate_tracking_spec_witness :
    (PythonActionRegistry.build
        [("terminate", metaTerminateW), ("read_project_file", metaReadW)]
        (some ["file_operations"]) none).terminate_tool = some metaTerminateW
    ∧ ∃ reg', (PythonActionRegistry.build
          [("terminate", metaTerminateW), ("read_project_file", metaReadW)]
          (some ["file_operations"]) none).register_terminate_tool = .ok reg'
        ∧ dictGet reg'.actions "terminate" = some (metaToAction "terminate" metaTerminateW)
    ∧ dictGet (PythonActionRegistry.build
          [("terminate", metaTerminateW), ("read_project_file", metaReadW)]
          (some ["file_operations"]) none).actions "terminate" = none := by
  have h := (terminate_tracking_spec
      [("terminate", metaTerminateW), ("read_project_file", metaReadW)]
      (some ["file_operations"]) none (by simp)).1 metaTerminateW
      (List.mem_cons_self _ _)
  obtain ⟨h1, reg', h2, h3⟩ := h
  exact ⟨h1, reg', h2, h3, rfl⟩

/-!  Claim C8 — the loop ceiling under a stubbed model capability. -/

/-- One unknown-tool iteration unfolds to a diagnostic append plus the loop on
the remaining budget, for every iteration budget, index and memory, given a
model capability that always succeeds with a reply naming an unregistered,
non-terminate tool. -/
theorem loopAux_unknown_tool (client : Nat → Prompt → Except String String)
    (registry : List (String × Action)) (env : Environment)
    (resp t : Nat → String)
    (hok : ∀ i p, client i p = .ok (resp i))
    (hparse : ∀ i, ∃ d, parse_response (resp i) = .obj d
        ∧ dictGet d "tool" = some (.str (t i)))
    (hterm : ∀ i, t i ≠ "terminate")
    (hunk : ∀ i, dictGet registry (t i) = none) :
    ∀ (remaining used : Nat) (mem : AgentMemory),
      loopAux client registry env mem used remaining
        = .ok ⟨(List.range' used remaining).foldl
                 (fun m i => addMsg m "assistant" (unknownToolMsg (t i))) mem,
               used + remaining, .exhausted⟩ := by
  intro remaining
  induction remaining with
  | zero =>
    intro used mem
    simp [loopAux, List.range']
  | succ n ih =>
    intro used mem
    obtain ⟨d, hd, htool⟩ := hparse used
    have hstep : loopAux client registry env mem used (n + 1)
        = loopAux client registry env
            (addMsg mem "assistant" (unknownToolMsg (t used))) (used + 1) n := by
      simp only [loopAux]
      rw [hok used]
      simp only [hd]
      simp only [htool]
      simp only [hterm used, if_false, ite_false]
      simp only [hunk used]
    rw [hstep, ih (used + 1), List.range'_succ, List.foldl_cons]
    have heq : used + (n + 1) = (used + 1) + n := by omega
    rw [heq]

/-- C8: with a model capability that succeeds on every call and always
requests a tool absent from the registry (never the terminate action), the
orchestration loop runs exactly `max_iterations` iterations, appends the
unknown-tool diagnostic on each of them, and ends in the exhausted state with
no unhandled failure. -/
theorem loop_ceiling_spec (client : Nat → Prompt → Except String String)
    (registry : List (String × Action)) (env : Environment)
    (task : String) (memory : AgentMemory) (max_iterations : Nat)
    (resp t : Nat → String)
    (hok : ∀ i p, client i p = .ok (resp i))
    (hparse : ∀ i, ∃ d, parse_response (resp i) = .obj d
        ∧ dictGet d "tool" = some (.str (t i)))
    (hterm : ∀ i, t i ≠ "terminate")
    (hunk : ∀ i, dictGet registry (t i) = none) :
    run_agent_loop client registry env task memory max_iterations
      = .ok ⟨(List.range max_iterations).foldl
               (fun m i => addMsg m "assistant" (unknownToolMsg (t i)))
               (addMsg memory "user" task),
             max_iterations, .exhausted⟩ := by
  unfold run_agent_loop
  rw [loopAux_unknown_tool client registry env resp t hok hparse hterm hunk
      max_iterations 0 (addMsg memory "user" task)]
  rw [List.range_eq_range']
  simp

/-- A stubbed model capability that always requests the unregistered tool
"does_not_exist". -/
def clientW : Nat → Prompt → Except String String :=
  fun _ _ => .ok "\x7b\"tool\": \"does_not_exist\"\x7d"

/-- Witness for C8: an empty registry, the stub client and a ceiling of 2
yield exactly two iterations, two diagnostics, and a normal exhausted stop. -/
theorem loop_ceiling_spec_witness :
    run_agent_loop clientW [] ⟨false, none⟩ "write a README" (AgentMemory.mk 20 []) 2
      = .ok ⟨AgentMemory.mk 20
          [⟨"user", "write a README"⟩,
           ⟨"assistant", "Requested tool \x27does_not_exist\x27 not found in registry."⟩,
           ⟨"assistant", "Requested tool \x27does_not_exist\x27 not found in registry."⟩],
          2, .exhausted⟩ := by
  have h := loop_ceiling_spec clientW [] ⟨false, none⟩ "write a README"
    (AgentMemory.mk 20 []) 2
    (fun _ => "\x7b\"tool\": \"does_not_exist\"\x7d") (fun _ => "does_not_exist")
    (fun _ _ => rfl)
    (fun _ => ⟨[("tool", .str "does_not_exist")], rfl, rfl⟩)
    (fun _ => by
      show "does_not_exist" ≠ "terminate"
      decide)
    (fun _ => rfl)
  rw [h]
  rfl

end AutoDoc
